import Mathlib

/-!
Shallow embedding of the snapshot-and-diff engine of app.py.

The program keeps a SQLite table snapshots (id, filepath, hash) with
primary key (id, filepath).  We model the durable database as a list of
rows, Python dicts as association lists with insert-or-overwrite
semantics, the file system as an abstract record of boolean tests and a
byte reader, and SHA-256 as an abstract function parameter from byte
content to hex string (the engine never inspects digests, it only
compares them).
-/

set_option autoImplicit false

namespace SnapDiff

/-- One row of the snapshots table: (id, filepath, hash). -/
structure Row where
  id : String
  filepath : String
  hash : String
deriving DecidableEq, Repr

/-- The durable content of the snapshots table. -/
abbrev DB := List Row

/-- Python dict lookup on an association list (d[k] / k in d). -/
def lookupAssoc (m : List (String × String)) (k : String) : Option String :=
  (m.find? (fun p => p.1 == k)).map (fun p => p.2)

/-- Python dict assignment d[k] = v: overwrite in place if the key is
present, otherwise append (dicts preserve insertion order). -/
def insertAssoc (m : List (String × String)) (k v : String) : List (String × String) :=
  if m.any (fun p => p.1 == k) then
    m.map (fun p => if p.1 == k then (k, v) else p)
  else m ++ [(k, v)]

/-- Keys of an association list, in order. -/
def keysOf (m : List (String × String)) : List String :=
  m.map (fun p => p.1)

/-- The keys are pairwise distinct (what the dict structure guarantees). -/
def NodupKeys (m : List (String × String)) : Prop :=
  (keysOf m).Nodup

/-- Abstract file system as calculate_file_hash observes it:
os.path.exists, os.path.isfile, and reading a file's full byte content,
where readBytes = none models open/read raising an exception. -/
structure FileSys where
  pathIsThere : String → Bool
  isfile : String → Bool
  readBytes : String → Option (List Nat)

/-- Lines 42-58 of app.py, calculate_file_hash: returns None when the
path does not exist or is not a regular file, returns None when reading
raises (the except branch), otherwise the SHA-256 hex digest of the
file's full byte content.  sha256hex abstracts hashlib: streaming the
content in 65536-byte blocks hashes exactly the concatenation, i.e. the
full content. -/
def calculate_file_hash (sha256hex : List Nat → String) (fs : FileSys)
    (filepath : String) : Option String :=
  if !(fs.pathIsThere filepath) || !(fs.isfile filepath) then none
  else
    match fs.readBytes filepath with
    | some content => some (sha256hex content)
    | none => none

/-- One regular file yielded by os.walk: its absolute path and its path
relative to the snapshot root. -/
structure WalkedFile where
  fullPath : String
  relPath : String
deriving DecidableEq, Repr

/-- A root directory as create_snapshot observes it: whether
os.path.isdir holds, and the regular files os.walk yields, in walk
order. -/
structure Dir where
  isdir : Bool
  files : List WalkedFile
deriving Repr

/-- Python truthiness of file_hash in the guard if file_hash:
None and the empty string are falsy. -/
def hashTruthy : Option String → Bool
  | some h => h != ""
  | none => false

/-- Lines 73-81 of app.py: the walk loop of create_snapshot.  acc is the
file_contents dict built so far and cnt the running file_count; a file
whose calculate_file_hash result is falsy is skipped. -/
def buildContentsAux (sha256hex : List Nat → String) (fs : FileSys)
    (acc : List (String × String)) (cnt : Nat) :
    List WalkedFile → List (String × String) × Nat
  | [] => (acc, cnt)
  | wf :: rest =>
    match calculate_file_hash sha256hex fs wf.fullPath with
    | some h =>
      if h != "" then
        buildContentsAux sha256hex fs (insertAssoc acc wf.relPath h) (cnt + 1) rest
      else
        buildContentsAux sha256hex fs acc cnt rest
    | none => buildContentsAux sha256hex fs acc cnt rest

/-- The file_contents dict and file_count that the walk loop produces. -/
def buildContents (sha256hex : List Nat → String) (fs : FileSys)
    (files : List WalkedFile) : List (String × String) × Nat :=
  buildContentsAux sha256hex fs [] 0 files

/-- Lines 83-103 of app.py: the database phase of create_snapshot.
The DELETE for the id is executed and committed on its own; then
executemany inserts the file_contents rows and commits.  insertFail
models executemany raising while inserting the entry at that index (none
means no failure); on failure the code rolls back, which undoes the
uncommitted inserts but not the already committed delete, and re-raises.
Returns the outcome and the durable table after conn.close(). -/
def snapshotDbPhase (db : DB) (snapshot_id : String)
    (file_contents : List (String × String)) (insertFail : Option Nat) :
    Except String Unit × DB :=
  let afterDelete := db.filter (fun r => !(r.id == snapshot_id))
  let failsMidInsert :=
    match insertFail with
    | some i => decide (i < file_contents.length)
    | none => false
  if failsMidInsert then
    (Except.error ("Database write error"), afterDelete)
  else
    (Except.ok (),
      afterDelete ++ file_contents.map (fun p => Row.mk snapshot_id p.1 p.2))

/-- Lines 61-105 of app.py, create_snapshot: raises FileNotFoundError
when the root is not a directory, walks and hashes the tree, replaces
the rows stored under snapshot_id, and returns file_count.  The result
is the returned value or raised error, paired with the durable table
afterwards. -/
def create_snapshot (sha256hex : List Nat → String) (fs : FileSys)
    (dir : Dir) (snapshot_id : String) (db : DB) (insertFail : Option Nat) :
    Except String Nat × DB :=
  if !dir.isdir then
    (Except.error ("Directory not found"), db)
  else
    let bc := buildContents sha256hex fs dir.files
    match snapshotDbPhase db snapshot_id bc.1 insertFail with
    | (Except.ok _, db2) => (Except.ok bc.2, db2)
    | (Except.error e, db2) => (Except.error e, db2)

/-- Lines 107-121 of app.py, load_snapshot: selects the rows with the
given id; returns None when there are none, otherwise the dict built
from the rows in select order. -/
def load_snapshot (db : DB) (snapshot_id : String) :
    Option (List (String × String)) :=
  let rows := db.filter (fun r => r.id == snapshot_id)
  if rows.isEmpty then none
  else some (rows.foldl (fun m r => insertAssoc m r.filepath r.hash) [])

/-- The summary block of the diff response. -/
structure DiffSummary where
  added : Nat
  deleted : Nat
  modified : Nat
deriving DecidableEq, Repr

/-- The diff_details block of the diff response. -/
structure DiffDetails where
  added : List String
  deleted : List String
  modified : List String
deriving DecidableEq, Repr

/-- The value compare_snapshots returns. -/
structure DiffResult where
  summary : DiffSummary
  diff_details : DiffDetails
deriving DecidableEq, Repr

/-- Lines 124-159 of app.py, compare_snapshots: loads both snapshots,
raises ValueError when either is None, then classifies: a path of B
absent from A is added, a path of B present in A with a different hash
is modified, a path of A absent from B is deleted.  The loops over
snap_b.items() and snap_a.keys() append in iteration order, which the
filters reproduce. -/
def compare_snapshots (db : DB) (snapshot_a_id snapshot_b_id : String) :
    Except String DiffResult :=
  match load_snapshot db snapshot_a_id, load_snapshot db snapshot_b_id with
  | some snap_a, some snap_b =>
    let added := (snap_b.filter
      (fun p => (lookupAssoc snap_a p.1).isNone)).map (fun p => p.1)
    let modified := (snap_b.filter
      (fun p =>
        match lookupAssoc snap_a p.1 with
        | some ha => ha != p.2
        | none => false)).map (fun p => p.1)
    let deleted := (snap_a.filter
      (fun p => (lookupAssoc snap_b p.1).isNone)).map (fun p => p.1)
    Except.ok
      { summary :=
          { added := added.length
            deleted := deleted.length
            modified := modified.length }
        diff_details :=
          { added := added
            deleted := deleted
            modified := modified } }
  | _, _ => Except.error ("One or both snapshot IDs not found.")

/-! Concrete instances used to exercise the definitions on real inputs. -/

/-- A concrete stand-in for SHA-256 hex digests: injective on content
length and never empty, which is all the engine observes. -/
def shaW : List Nat → String :=
  fun c => String.mk ('h' :: List.replicate c.length ('a'))

/-- A concrete file system: f1.txt readable, f2.txt present but failing
mid-read, f3.txt readable, everything else absent. -/
def fsW : FileSys :=
  { pathIsThere := fun p => p == "f1.txt" || p == "f2.txt" || p == "f3.txt"
    isfile := fun p => p == "f1.txt" || p == "f2.txt" || p == "f3.txt"
    readBytes := fun p =>
      if p == "f1.txt" then some [1]
      else if p == "f3.txt" then some [1, 2]
      else none }

/-- A concrete root holding the three files of fsW. -/
def dirW : Dir :=
  { isdir := true
    files := [ { fullPath := "f1.txt", relPath := "f1.txt" }
             , { fullPath := "f2.txt", relPath := "f2.txt" }
             , { fullPath := "f3.txt", relPath := "f3.txt" } ] }

/-- A concrete root containing zero regular files. -/
def dirEmptyW : Dir :=
  { isdir := true, files := [] }

/-- A concrete stored table holding two snapshots A and B that differ by
one added, one deleted and one modified path. -/
def dbW : DB :=
  [ ⟨"A", "same.txt", "h1"⟩, ⟨"A", "old.txt", "h2"⟩, ⟨"A", "mod.txt", "h3"⟩
  , ⟨"B", "same.txt", "h1"⟩, ⟨"B", "new.txt", "h4"⟩, ⟨"B", "mod.txt", "h5"⟩ ]

/-- The mapping load_snapshot returns for id A of dbW. -/
def saW : List (String × String) :=
  [("same.txt", "h1"), ("old.txt", "h2"), ("mod.txt", "h3")]

/-- The mapping load_snapshot returns for id B of dbW. -/
def sbW : List (String × String) :=
  [("same.txt", "h1"), ("new.txt", "h4"), ("mod.txt", "h5")]

/-- The DiffResult compare_snapshots returns on dbW, A vs B. -/
def rW : DiffResult :=
  { summary := { added := 1, deleted := 1, modified := 1 }
    diff_details :=
      { added := ["new.txt"], deleted := ["old.txt"], modified := ["mod.txt"] } }

/-! Helper lemmas about the dict model. -/

theorem lookupAssoc_nil (k : String) : lookupAssoc [] k = none := rfl

theorem lookupAssoc_cons (p : String × String) (m : List (String × String))
    (k : String) :
    lookupAssoc (p :: m) k =
      if p.1 == k then some p.2 else lookupAssoc m k := by
  by_cases h : p.1 == k <;> simp [lookupAssoc, List.find?, h]

theorem mem_of_lookupAssoc_eq_some {m : List (String × String)} {k v : String}
    (h : lookupAssoc m k = some v) : (k, v) ∈ m := by
  unfold lookupAssoc at h
  cases hf : m.find? (fun p => p.1 == k) with
  | none => simp [hf] at h
  | some pr =>
    have hmem := List.mem_of_find?_eq_some hf
    have hpred := List.find?_some hf
    simp [hf] at h
    have hk : pr.1 = k := by simpa using hpred
    have : pr = (k, v) := by
      cases pr
      simp_all
    rwa [this] at hmem

theorem lookupAssoc_isSome_iff {m : List (String × String)} {k : String} :
    (lookupAssoc m k).isSome ↔ ∃ v, (k, v) ∈ m := by
  constructor
  · intro h
    rcases Option.isSome_iff_exists.mp h with ⟨v, hv⟩
    exact ⟨v, mem_of_lookupAssoc_eq_some hv⟩
  · rintro ⟨v, hv⟩
    unfold lookupAssoc
    have : (m.find? (fun p => p.1 == k)).isSome := by
      rw [List.find?_isSome]
      exact ⟨(k, v), hv, by simp⟩
    rcases Option.isSome_iff_exists.mp this with ⟨pr, hpr⟩
    simp [hpr]

theorem lookupAssoc_eq_none_iff {m : List (String × String)} {k : String} :
    lookupAssoc m k = none ↔ ∀ v, (k, v) ∉ m := by
  rw [← Option.not_isSome_iff_eq_none, lookupAssoc_isSome_iff]
  push_neg
  rfl

theorem lookupAssoc_of_mem_nodup {m : List (String × String)} {k v : String}
    (hnd : NodupKeys m) (hm : (k, v) ∈ m) : lookupAssoc m k = some v := by
  induction m with
  | nil => simp at hm
  | cons p ps ih =>
    have hnd1 : p.1 ∉ keysOf ps := by
      have := hnd
      unfold NodupKeys keysOf at this
      simp only [List.map_cons, List.nodup_cons] at this
      unfold keysOf
      exact this.1
    have hnd2 : NodupKeys ps := by
      have := hnd
      unfold NodupKeys keysOf at this
      simp only [List.map_cons, List.nodup_cons] at this
      unfold NodupKeys keysOf
      exact this.2
    rcases List.mem_cons.mp hm with heq | hmem
    · rw [← heq, lookupAssoc_cons]
      simp
    · rw [lookupAssoc_cons]
      by_cases hpk : p.1 == k
      · exfalso
        have hk1 : p.1 = k := by simpa using hpk
        apply hnd1
        rw [hk1]
        unfold keysOf
        exact List.mem_map.mpr ⟨(k, v), hmem, rfl⟩
      · simp only [hpk, Bool.false_eq_true, if_false]
        exact ih hnd2 hmem

theorem keysOf_insertAssoc_of_any (m : List (String × String)) (k v : String)
    (h : m.any (fun p => p.1 == k) = true) :
    keysOf (insertAssoc m k v) = keysOf m := by
  simp only [insertAssoc, h, if_pos, keysOf, List.map_map]
  apply List.map_congr_left
  intro p _
  by_cases hpk : p.1 = k
  · simp [hpk]
  · simp [hpk]

theorem keysOf_insertAssoc_of_not_any (m : List (String × String)) (k v : String)
    (h : m.any (fun p => p.1 == k) = false) :
    keysOf (insertAssoc m k v) = keysOf m ++ [k] := by
  simp [insertAssoc, h, keysOf]

theorem nodupKeys_insertAssoc {m : List (String × String)} (k v : String)
    (h : NodupKeys m) : NodupKeys (insertAssoc m k v) := by
  cases hany : m.any (fun p => p.1 == k) with
  | true =>
    unfold NodupKeys
    rw [keysOf_insertAssoc_of_any m k v hany]
    exact h
  | false =>
    unfold NodupKeys
    rw [keysOf_insertAssoc_of_not_any m k v hany]
    refine List.Nodup.append h (List.nodup_singleton k) ?_
    intro x hx hx2
    have hxk : x = k := by simpa using hx2
    subst hxk
    unfold keysOf at hx
    rcases List.mem_map.mp hx with ⟨p, hp, hpk⟩
    have hane : m.any (fun q => q.1 == x) = true :=
      List.any_eq_true.mpr ⟨p, hp, by simp [hpk]⟩
    rw [hany] at hane
    exact Bool.false_ne_true hane

theorem nodupKeys_foldl_insertAssoc (l : List Row)
    (acc : List (String × String)) (h : NodupKeys acc) :
    NodupKeys (l.foldl (fun m r => insertAssoc m r.filepath r.hash) acc) := by
  induction l generalizing acc with
  | nil => exact h
  | cons r rs ih =>
    exact ih (insertAssoc acc r.filepath r.hash)
      (nodupKeys_insertAssoc r.filepath r.hash h)

theorem load_snapshot_nodupKeys {db : DB} {id m : _}
    (h : load_snapshot db id = some m) : NodupKeys m := by
  unfold load_snapshot at h
  by_cases he : (db.filter (fun r => r.id == id)).isEmpty
  · simp [he] at h
  · simp only [he, if_neg, Bool.false_eq_true, not_false_iff, if_false] at h
    have hnd := nodupKeys_foldl_insertAssoc (db.filter (fun r => r.id == id)) []
      (by simp [NodupKeys, keysOf])
    have h2 := Option.some.inj h
    rwa [h2] at hnd

/-! Membership in the three classification lists of compare_snapshots. -/

theorem mem_addedList_iff (sa sb : List (String × String)) (p : String) :
    (p ∈ (sb.filter (fun q => (lookupAssoc sa q.1).isNone)).map (fun q => q.1)) ↔
      ((lookupAssoc sb p).isSome ∧ lookupAssoc sa p = none) := by
  constructor
  · intro h
    rcases List.mem_map.mp h with ⟨q, hq, hq1⟩
    rcases List.mem_filter.mp hq with ⟨hqmem, hqpred⟩
    subst hq1
    refine ⟨lookupAssoc_isSome_iff.mpr ⟨q.2, by simpa using hqmem⟩, ?_⟩
    simpa using hqpred
  · rintro ⟨hsome, hnone⟩
    rcases Option.isSome_iff_exists.mp hsome with ⟨v, hv⟩
    have hmem := mem_of_lookupAssoc_eq_some hv
    exact List.mem_map.mpr
      ⟨(p, v), List.mem_filter.mpr ⟨hmem, by simp [hnone]⟩, rfl⟩

theorem mem_modifiedList_iff (sa sb : List (String × String))
    (hnd : NodupKeys sb) (p : String) :
    (p ∈ (sb.filter (fun q =>
        match lookupAssoc sa q.1 with
        | some ha => ha != q.2
        | none => false)).map (fun q => q.1)) ↔
      (∃ da d_b, lookupAssoc sa p = some da ∧ lookupAssoc sb p = some d_b ∧
        da ≠ d_b) := by
  constructor
  · intro h
    rcases List.mem_map.mp h with ⟨q, hq, hq1⟩
    rcases List.mem_filter.mp hq with ⟨hqmem, hqpred⟩
    subst hq1
    cases hla : lookupAssoc sa q.1 with
    | none => rw [hla] at hqpred; simp at hqpred
    | some ha =>
      rw [hla] at hqpred
      have hne : ha ≠ q.2 := by simpa using hqpred
      refine ⟨ha, q.2, ?_, ?_, hne⟩
      · rfl
      · exact lookupAssoc_of_mem_nodup hnd (by simpa using hqmem)
  · rintro ⟨da, d_b, hda, hdb, hne⟩
    have hmem := mem_of_lookupAssoc_eq_some hdb
    refine List.mem_map.mpr ⟨(p, d_b), List.mem_filter.mpr ⟨hmem, ?_⟩, rfl⟩
    rw [hda]
    simpa using hne

/-- C1: for stored snapshots A (id_a) and B (id_b), compare_snapshots
returns added = paths in B not in A, deleted = paths in A not in B,
modified = paths in both with differing digests; a path in both with
equal digests is in none of the lists, and the three lists are pairwise
disjoint. -/
theorem compare_snapshots_classification
    (db : DB) (id_a id_b : String) (sa sb : List (String × String))
    (r : DiffResult)
    (ha : load_snapshot db id_a = some sa)
    (hb : load_snapshot db id_b = some sb)
    (hr : compare_snapshots db id_a id_b = Except.ok r) :
    (∀ p, p ∈ r.diff_details.added ↔
        ((lookupAssoc sb p).isSome ∧ lookupAssoc sa p = none)) ∧
    (∀ p, p ∈ r.diff_details.deleted ↔
        ((lookupAssoc sa p).isSome ∧ lookupAssoc sb p = none)) ∧
    (∀ p, p ∈ r.diff_details.modified ↔
        (∃ da d_b, lookupAssoc sa p = some da ∧ lookupAssoc sb p = some d_b ∧
          da ≠ d_b)) ∧
    (∀ p, ¬(p ∈ r.diff_details.added ∧ p ∈ r.diff_details.deleted)) ∧
    (∀ p, ¬(p ∈ r.diff_details.added ∧ p ∈ r.diff_details.modified)) ∧
    (∀ p, ¬(p ∈ r.diff_details.deleted ∧ p ∈ r.diff_details.modified)) ∧
    (∀ p d, lookupAssoc sa p = some d → lookupAssoc sb p = some d →
        ¬(p ∈ r.diff_details.added ∨ p ∈ r.diff_details.deleted ∨
          p ∈ r.diff_details.modified)) := by
  have hndb : NodupKeys sb := load_snapshot_nodupKeys hb
  simp only [compare_snapshots, ha, hb, Except.ok.injEq] at hr
  subst hr
  refine ⟨?_, ?_, ?_, ?_, ?_, ?_, ?_⟩
  · intro p
    exact mem_addedList_iff sa sb p
  · intro p
    exact mem_addedList_iff sb sa p
  · intro p
    exact mem_modifiedList_iff sa sb hndb p
  · rintro p ⟨h1, h2⟩
    rcases (mem_addedList_iff sa sb p).mp h1 with ⟨hbs, hanone⟩
    rcases (mem_addedList_iff sb sa p).mp h2 with ⟨has, hbnone⟩
    rw [hanone] at has
    simp at has
  · rintro p ⟨h1, h2⟩
    rcases (mem_addedList_iff sa sb p).mp h1 with ⟨hbs, hanone⟩
    rcases (mem_modifiedList_iff sa sb hndb p).mp h2 with ⟨da, d_b, hda, hdb, hne⟩
    rw [hanone] at hda
    cases hda
  · rintro p ⟨h1, h2⟩
    rcases (mem_addedList_iff sb sa p).mp h1 with ⟨has, hbnone⟩
    rcases (mem_modifiedList_iff sa sb hndb p).mp h2 with ⟨da, d_b, hda, hdb, hne⟩
    rw [hbnone] at hdb
    cases hdb
  · rintro p d h1 h2 (hmem | hmem | hmem)
    · rcases (mem_addedList_iff sa sb p).mp hmem with ⟨hbs, hanone⟩
      rw [h1] at hanone
      cases hanone
    · rcases (mem_addedList_iff sb sa p).mp hmem with ⟨has, hbnone⟩
      rw [h2] at hbnone
      cases hbnone
    · rcases (mem_modifiedList_iff sa sb hndb p).mp hmem with
        ⟨da, d_b, hda, hdb, hne⟩
      rw [h1] at hda
      rw [h2] at hdb
      cases hda
      cases hdb
      exact hne rfl

theorem compare_snapshots_classification_witness :
    ("new.txt" ∈ rW.diff_details.added ↔
      ((lookupAssoc sbW ("new.txt")).isSome ∧
        lookupAssoc saW ("new.txt") = none)) :=
  (compare_snapshots_classification dbW ("A") ("B") saW sbW rW (by rfl)
    (by rfl) (by rfl)).1 ("new.txt")

/-- C7: when at least one of the two ids has no entries in the store,
compare_snapshots raises the same ValueError whether the first, the
second or both ids are missing. -/
theorem compare_snapshots_missing_id_error (db : DB) (id_a id_b : String)
    (h : (∀ r ∈ db, r.id ≠ id_a) ∨ (∀ r ∈ db, r.id ≠ id_b)) :
    compare_snapshots db id_a id_b =
      Except.error ("One or both snapshot IDs not found.") := by
  have key : ∀ idx : String, (∀ r ∈ db, r.id ≠ idx) →
      load_snapshot db idx = none := by
    intro idx hidx
    unfold load_snapshot
    have hfil : db.filter (fun r => r.id == idx) = [] := by
      rw [List.filter_eq_nil_iff]
      intro r hr
      simp [hidx r hr]
    simp [hfil]
  unfold compare_snapshots
  rcases h with h | h
  · rw [key id_a h]
  · rw [key id_b h]
    cases load_snapshot db id_a <;> rfl

theorem compare_snapshots_missing_id_error_witness :
    compare_snapshots [] ("x") ("y") =
      Except.error ("One or both snapshot IDs not found.") :=
  compare_snapshots_missing_id_error [] ("x") ("y") (Or.inl (by simp))

/-- C8: every DiffResult compare_snapshots returns has its three summary
cardinalities equal to the lengths of the corresponding detail lists. -/
theorem diff_summary_matches_details (db : DB) (id_a id_b : String)
    (r : DiffResult) (h : compare_snapshots db id_a id_b = Except.ok r) :
    r.summary.added = r.diff_details.added.length ∧
    r.summary.deleted = r.diff_details.deleted.length ∧
    r.summary.modified = r.diff_details.modified.length := by
  cases ha : load_snapshot db id_a with
  | none =>
    have herr : compare_snapshots db id_a id_b =
        Except.error ("One or both snapshot IDs not found.") := by
      unfold compare_snapshots
      rw [ha]
    rw [herr] at h
    exact Except.noConfusion h
  | some sa =>
    cases hb : load_snapshot db id_b with
    | none =>
      have herr : compare_snapshots db id_a id_b =
          Except.error ("One or both snapshot IDs not found.") := by
        unfold compare_snapshots
        rw [ha, hb]
      rw [herr] at h
      exact Except.noConfusion h
    | some sb =>
      simp only [compare_snapshots, ha, hb, Except.ok.injEq] at h
      subst h
      exact ⟨rfl, rfl, rfl⟩

theorem diff_summary_matches_details_witness :
    rW.summary.added = rW.diff_details.added.length ∧
    rW.summary.deleted = rW.diff_details.deleted.length ∧
    rW.summary.modified = rW.diff_details.modified.length :=
  diff_summary_matches_details dbW ("A") ("B") rW (by rfl)

/-- A some result of calculate_file_hash is the digest of the bytes the
file system delivered. -/
theorem calculate_file_hash_some_shape {sha256hex : List Nat → String}
    {fs : FileSys} {p h : String}
    (hh : calculate_file_hash sha256hex fs p = some h) :
    ∃ c, fs.readBytes p = some c ∧ h = sha256hex c := by
  unfold calculate_file_hash at hh
  cases hg : (!(fs.pathIsThere p) || !(fs.isfile p)) with
  | true => simp [hg] at hh
  | false =>
    simp only [hg, Bool.false_eq_true, if_false] at hh
    cases hr : fs.readBytes p with
    | none => rw [hr] at hh; exact Option.noConfusion hh
    | some c =>
      rw [hr] at hh
      exact ⟨c, rfl, (Option.some.inj hh).symm⟩

/-- C10: calculate_file_hash is total and never propagates an exception:
when the path exists, is a regular file, and reading succeeds it returns
the digest of the file's byte content, and in every failure case
(missing path, not a regular file, read error) it returns None. -/
theorem calculate_file_hash_total (sha256hex : List Nat → String)
    (fs : FileSys) (p : String) :
    (∃ c, fs.readBytes p = some c ∧
        calculate_file_hash sha256hex fs p = some (sha256hex c) ∧
        fs.pathIsThere p = true ∧ fs.isfile p = true) ∨
    (calculate_file_hash sha256hex fs p = none ∧
      (fs.pathIsThere p = false ∨ fs.isfile p = false ∨
        fs.readBytes p = none)) := by
  cases he : fs.pathIsThere p with
  | false => right; exact ⟨by simp [calculate_file_hash, he], Or.inl rfl⟩
  | true =>
    cases hf : fs.isfile p with
    | false =>
      right
      exact ⟨by simp [calculate_file_hash, he, hf], Or.inr (Or.inl rfl)⟩
    | true =>
      cases hr : fs.readBytes p with
      | none =>
        right
        exact ⟨by simp [calculate_file_hash, he, hf, hr],
          Or.inr (Or.inr rfl)⟩
      | some c =>
        left
        exact ⟨c, rfl, by simp [calculate_file_hash, he, hf, hr], rfl, rfl⟩

/-- C5 counterexample: a path that fails mid-read (f2.txt of fsW exists
but its read raises) makes calculate_file_hash return None, a non-digest
value, instead of failing with an IOError; a missing path likewise. -/
theorem calculate_file_hash_no_ioerror_cex :
    calculate_file_hash shaW fsW ("f2.txt") = none ∧
    calculate_file_hash shaW fsW ("nope.txt") = none :=
  ⟨rfl, rfl⟩

/-- C5 amended: for every path that cannot be opened or read (missing,
not a regular file, or a mid-read failure), calculate_file_hash returns
None rather than a digest; the error is swallowed, not raised. -/
theorem calculate_file_hash_failure_returns_none
    (sha256hex : List Nat → String) (fs : FileSys) (p : String)
    (h : fs.pathIsThere p = false ∨ fs.isfile p = false ∨
      fs.readBytes p = none) :
    calculate_file_hash sha256hex fs p = none := by
  cases hpe : fs.pathIsThere p <;> cases hif : fs.isfile p <;>
    cases hrb : fs.readBytes p <;> simp_all [calculate_file_hash]

theorem calculate_file_hash_failure_returns_none_witness :
    calculate_file_hash shaW fsW ("f2.txt") = none :=
  calculate_file_hash_failure_returns_none shaW fsW ("f2.txt")
    (Or.inr (Or.inr (by rfl)))

theorem any_key_iff_mem_keys (m : List (String × String)) (k : String) :
    (m.any (fun p => p.1 == k) = true) ↔ k ∈ keysOf m := by
  rw [List.any_eq_true]
  unfold keysOf
  constructor
  · rintro ⟨p, hp, hpk⟩
    exact List.mem_map.mpr ⟨p, hp, by simpa using hpk⟩
  · intro hk
    rcases List.mem_map.mp hk with ⟨p, hp, hpk⟩
    exact ⟨p, hp, by simp [hpk]⟩

theorem lookupAssoc_isSome_iff_mem_keys {m : List (String × String)}
    {k : String} : (lookupAssoc m k).isSome ↔ k ∈ keysOf m := by
  rw [lookupAssoc_isSome_iff]
  unfold keysOf
  constructor
  · rintro ⟨v, hv⟩
    exact List.mem_map.mpr ⟨(k, v), hv, rfl⟩
  · intro hk
    rcases List.mem_map.mp hk with ⟨p, hp, hpk⟩
    exact ⟨p.2, by rw [← hpk]; exact hp⟩

theorem any_eq_false_of_lookupAssoc_none {m : List (String × String)}
    {k : String} (h : lookupAssoc m k = none) :
    m.any (fun p => p.1 == k) = false := by
  rw [Bool.eq_false_iff]
  intro hany
  have hk := (any_key_iff_mem_keys m k).mp hany
  have hs := lookupAssoc_isSome_iff_mem_keys.mpr hk
  rw [h] at hs
  simp at hs

theorem mem_keys_insertAssoc (m : List (String × String)) (k v k2 : String) :
    (k2 ∈ keysOf (insertAssoc m k v)) ↔ (k2 ∈ keysOf m ∨ k2 = k) := by
  cases hany : m.any (fun p => p.1 == k) with
  | true =>
    rw [keysOf_insertAssoc_of_any m k v hany]
    have hk := (any_key_iff_mem_keys m k).mp hany
    constructor
    · exact Or.inl
    · rintro (h | h)
      · exact h
      · rw [h]; exact hk
  | false =>
    rw [keysOf_insertAssoc_of_not_any m k v hany]
    simp [List.mem_append]

theorem lookupAssoc_map_overwrite (m : List (String × String))
    (k v k2 : String) (hne : k2 ≠ k) :
    lookupAssoc (m.map (fun p => if p.1 == k then (k, v) else p)) k2 =
      lookupAssoc m k2 := by
  induction m with
  | nil => rfl
  | cons p ps ih =>
    simp only [List.map_cons, lookupAssoc_cons]
    by_cases hpk : p.1 = k
    · have h0 : (if p.1 == k then (k, v) else p) = (k, v) := by simp [hpk]
      rw [h0]
      have h1 : ((k, v).1 == k2) = false := by simp [Ne.symm hne]
      have h2 : (p.1 == k2) = false := by simp [hpk, Ne.symm hne]
      rw [h1, h2]
      simp only [Bool.false_eq_true, if_false]
      exact ih
    · have h0 : (if p.1 == k then (k, v) else p) = p := by simp [hpk]
      rw [h0, ih]

theorem lookupAssoc_map_overwrite_self (m : List (String × String))
    (k v : String) (hin : m.any (fun p => p.1 == k) = true) :
    lookupAssoc (m.map (fun p => if p.1 == k then (k, v) else p)) k =
      some v := by
  induction m with
  | nil => simp at hin
  | cons p ps ih =>
    simp only [List.any_cons, Bool.or_eq_true] at hin
    simp only [List.map_cons, lookupAssoc_cons]
    by_cases hpk : p.1 = k
    · simp [hpk]
    · have hf : (p.1 == k) = false := by simp [hpk]
      rw [hf]
      simp only [Bool.false_eq_true, if_false]
      rw [hf]
      simp only [Bool.false_eq_true, if_false]
      exact ih (hin.resolve_left (by simp [hpk]))

theorem lookupAssoc_append_single_ne (m : List (String × String))
    (k v k2 : String) (hne : k2 ≠ k) :
    lookupAssoc (m ++ [(k, v)]) k2 = lookupAssoc m k2 := by
  induction m with
  | nil =>
    rw [List.nil_append, lookupAssoc_cons]
    simp [Ne.symm hne]
  | cons p ps ih =>
    simp only [List.cons_append, lookupAssoc_cons, ih]

theorem lookupAssoc_append_single_self (m : List (String × String))
    (k v : String) (hnotin : m.any (fun p => p.1 == k) = false) :
    lookupAssoc (m ++ [(k, v)]) k = some v := by
  induction m with
  | nil =>
    rw [List.nil_append, lookupAssoc_cons]
    simp
  | cons p ps ih =>
    simp only [List.any_cons, Bool.or_eq_false_iff] at hnotin
    rw [List.cons_append, lookupAssoc_cons, hnotin.1]
    simp only [Bool.false_eq_true, if_false]
    exact ih hnotin.2

theorem lookupAssoc_insertAssoc_self (m : List (String × String))
    (k v : String) : lookupAssoc (insertAssoc m k v) k = some v := by
  unfold insertAssoc
  by_cases hany : m.any (fun p => p.1 == k) = true
  · rw [if_pos hany]
    exact lookupAssoc_map_overwrite_self m k v hany
  · rw [if_neg hany]
    exact lookupAssoc_append_single_self m k v (Bool.eq_false_iff.mpr hany)

theorem lookupAssoc_insertAssoc_ne (m : List (String × String))
    (k v k2 : String) (hne : k2 ≠ k) :
    lookupAssoc (insertAssoc m k v) k2 = lookupAssoc m k2 := by
  unfold insertAssoc
  by_cases hany : m.any (fun p => p.1 == k) = true
  · rw [if_pos hany]
    exact lookupAssoc_map_overwrite m k v k2 hne
  · rw [if_neg hany]
    exact lookupAssoc_append_single_ne m k v k2 hne

theorem lookupAssoc_insertAssoc_isSome (m : List (String × String))
    (k v k2 : String) :
    (lookupAssoc (insertAssoc m k v) k2).isSome ↔
      ((lookupAssoc m k2).isSome ∨ k2 = k) := by
  by_cases hk : k2 = k
  · subst hk
    simp [lookupAssoc_insertAssoc_self]
  · rw [lookupAssoc_insertAssoc_ne m k v k2 hk]
    simp [hk]

theorem insertAssoc_length_of_not_any (m : List (String × String))
    (k v : String) (h : m.any (fun p => p.1 == k) = false) :
    (insertAssoc m k v).length = m.length + 1 := by
  unfold insertAssoc
  rw [if_neg (by simp [h])]
  simp

/-- The concrete digest function never returns the empty string, like a
real SHA-256 hexdigest. -/
theorem shaW_ne_empty : ∀ c : List Nat, shaW c ≠ "" := by
  intro c h
  unfold shaW at h
  have hd := congrArg String.data h
  simp at hd

/-- A non-None hash is non-empty when the digest function never returns
the empty string (so the truthiness test of app.py accepts it). -/
theorem hash_ne_empty_of_some {sha256hex : List Nat → String} {fs : FileSys}
    {p h : String} (hsha : ∀ c, sha256hex c ≠ "")
    (hh : calculate_file_hash sha256hex fs p = some h) : h ≠ "" := by
  rcases calculate_file_hash_some_shape hh with ⟨c, hc, rfl⟩
  exact hsha c

theorem buildContentsAux_step_none (sha256hex : List Nat → String)
    (fs : FileSys) (acc : List (String × String)) (cnt : Nat)
    (wf : WalkedFile) (rest : List WalkedFile)
    (hh : calculate_file_hash sha256hex fs wf.fullPath = none) :
    buildContentsAux sha256hex fs acc cnt (wf :: rest) =
      buildContentsAux sha256hex fs acc cnt rest := by
  simp only [buildContentsAux]
  rw [hh]

theorem buildContentsAux_step_some (sha256hex : List Nat → String)
    (fs : FileSys) (acc : List (String × String)) (cnt : Nat)
    (wf : WalkedFile) (rest : List WalkedFile) (h : String)
    (hh : calculate_file_hash sha256hex fs wf.fullPath = some h)
    (hne : h ≠ "") :
    buildContentsAux sha256hex fs acc cnt (wf :: rest) =
      buildContentsAux sha256hex fs (insertAssoc acc wf.relPath h) (cnt + 1)
        rest := by
  have hbne : (h != "") = true := by simpa using hne
  simp only [buildContentsAux]
  rw [hh]
  simp [hbne]

theorem buildContentsAux_count (sha256hex : List Nat → String) (fs : FileSys)
    (hsha : ∀ c, sha256hex c ≠ "") (files : List WalkedFile) :
    ∀ (acc : List (String × String)) (cnt : Nat),
    (buildContentsAux sha256hex fs acc cnt files).2 =
      cnt + (files.filter (fun wf =>
        (calculate_file_hash sha256hex fs wf.fullPath).isSome)).length := by
  induction files with
  | nil =>
    intro acc cnt
    simp [buildContentsAux]
  | cons wf rest ih =>
    intro acc cnt
    cases hh : calculate_file_hash sha256hex fs wf.fullPath with
    | none =>
      rw [buildContentsAux_step_none sha256hex fs acc cnt wf rest hh]
      rw [ih acc cnt]
      simp [List.filter_cons, hh]
    | some h =>
      have hne := hash_ne_empty_of_some hsha hh
      rw [buildContentsAux_step_some sha256hex fs acc cnt wf rest h hh hne]
      rw [ih (insertAssoc acc wf.relPath h) (cnt + 1)]
      simp [List.filter_cons, hh]
      omega

theorem buildContentsAux_keys (sha256hex : List Nat → String) (fs : FileSys)
    (hsha : ∀ c, sha256hex c ≠ "") (files : List WalkedFile) :
    ∀ (acc : List (String × String)) (cnt : Nat) (k : String),
    ((lookupAssoc (buildContentsAux sha256hex fs acc cnt files).1 k).isSome ↔
      ((lookupAssoc acc k).isSome ∨ ∃ wf ∈ files, wf.relPath = k ∧
        (calculate_file_hash sha256hex fs wf.fullPath).isSome)) := by
  induction files with
  | nil =>
    intro acc cnt k
    simp [buildContentsAux]
  | cons wf rest ih =>
    intro acc cnt k
    cases hh : calculate_file_hash sha256hex fs wf.fullPath with
    | none =>
      rw [buildContentsAux_step_none sha256hex fs acc cnt wf rest hh]
      rw [ih acc cnt k]
      simp [List.exists_mem_cons_iff, hh]
    | some h =>
      have hne := hash_ne_empty_of_some hsha hh
      rw [buildContentsAux_step_some sha256hex fs acc cnt wf rest h hh hne]
      rw [ih (insertAssoc acc wf.relPath h) (cnt + 1) k]
      rw [lookupAssoc_insertAssoc_isSome]
      simp only [List.exists_mem_cons_iff, hh, Option.isSome_some, and_true]
      constructor
      · rintro ((hacc | hk) | hrest)
        · exact Or.inl hacc
        · exact Or.inr (Or.inl hk.symm)
        · exact Or.inr (Or.inr hrest)
      · rintro (hacc | hk | hrest)
        · exact Or.inl (Or.inl hacc)
        · exact Or.inl (Or.inr hk.symm)
        · exact Or.inr hrest

/-- C6: during a build, every file whose hashing fails is silently
excluded from the resulting mapping (a relative path is present exactly
when some walked file with that relative path hashed successfully), the
walk always runs to completion, and the returned file count counts
exactly the successfully hashed files. -/
theorem build_skips_unhashable_files (sha256hex : List Nat → String)
    (fs : FileSys) (files : List WalkedFile)
    (hsha : ∀ c, sha256hex c ≠ "") :
    (buildContents sha256hex fs files).2 =
      (files.filter (fun wf =>
        (calculate_file_hash sha256hex fs wf.fullPath).isSome)).length ∧
    (∀ k, (lookupAssoc (buildContents sha256hex fs files).1 k).isSome ↔
      ∃ wf ∈ files, wf.relPath = k ∧
        (calculate_file_hash sha256hex fs wf.fullPath).isSome) := by
  constructor
  · have h := buildContentsAux_count sha256hex fs hsha files [] 0
    simpa [buildContents] using h
  · intro k
    have h := buildContentsAux_keys sha256hex fs hsha files [] 0 k
    simpa [buildContents, lookupAssoc] using h

theorem build_skips_unhashable_files_witness :
    (buildContents shaW fsW dirW.files).2 =
      (dirW.files.filter (fun wf =>
        (calculate_file_hash shaW fsW wf.fullPath).isSome)).length :=
  (build_skips_unhashable_files shaW fsW dirW.files shaW_ne_empty).1

theorem buildContentsAux_step_some_empty (sha256hex : List Nat → String)
    (fs : FileSys) (acc : List (String × String)) (cnt : Nat)
    (wf : WalkedFile) (rest : List WalkedFile) (h : String)
    (hh : calculate_file_hash sha256hex fs wf.fullPath = some h)
    (hemp : (h != "") = false) :
    buildContentsAux sha256hex fs acc cnt (wf :: rest) =
      buildContentsAux sha256hex fs acc cnt rest := by
  simp only [buildContentsAux]
  rw [hh]
  simp [hemp]

theorem buildContentsAux_nodupKeys (sha256hex : List Nat → String)
    (fs : FileSys) (files : List WalkedFile) :
    ∀ (acc : List (String × String)) (cnt : Nat), NodupKeys acc →
    NodupKeys (buildContentsAux sha256hex fs acc cnt files).1 := by
  induction files with
  | nil =>
    intro acc cnt hacc
    exact hacc
  | cons wf rest ih =>
    intro acc cnt hacc
    cases hh : calculate_file_hash sha256hex fs wf.fullPath with
    | none =>
      rw [buildContentsAux_step_none sha256hex fs acc cnt wf rest hh]
      exact ih acc cnt hacc
    | some h =>
      cases hb : (h != "") with
      | false =>
        rw [buildContentsAux_step_some_empty sha256hex fs acc cnt wf rest h hh hb]
        exact ih acc cnt hacc
      | true =>
        rw [buildContentsAux_step_some sha256hex fs acc cnt wf rest h hh
          (by simpa using hb)]
        exact ih (insertAssoc acc wf.relPath h) (cnt + 1)
          (nodupKeys_insertAssoc wf.relPath h hacc)

theorem buildContentsAux_strong (sha256hex : List Nat → String) (fs : FileSys)
    (hsha : ∀ c, sha256hex c ≠ "") (files : List WalkedFile) :
    ∀ (acc : List (String × String)) (cnt : Nat),
    NodupKeys acc →
    (files.map (fun wf => wf.relPath)).Nodup →
    (∀ wf ∈ files, lookupAssoc acc wf.relPath = none) →
    (buildContentsAux sha256hex fs acc cnt files).1.length =
      acc.length + (files.filter (fun wf =>
        (calculate_file_hash sha256hex fs wf.fullPath).isSome)).length ∧
    (∀ k v, lookupAssoc (buildContentsAux sha256hex fs acc cnt files).1 k
        = some v ↔
      (lookupAssoc acc k = some v ∨ ∃ wf ∈ files, wf.relPath = k ∧
        calculate_file_hash sha256hex fs wf.fullPath = some v)) := by
  induction files with
  | nil =>
    intro acc cnt hacc _ _
    refine ⟨by simp [buildContentsAux], ?_⟩
    intro k v
    simp [buildContentsAux]
  | cons wf rest ih =>
    intro acc cnt hacc hnd hfresh
    have hndrest : (rest.map (fun w => w.relPath)).Nodup :=
      (List.nodup_cons.mp (by simpa using hnd)).2
    have hhead : wf.relPath ∉ rest.map (fun w => w.relPath) :=
      (List.nodup_cons.mp (by simpa using hnd)).1
    cases hh : calculate_file_hash sha256hex fs wf.fullPath with
    | none =>
      rw [buildContentsAux_step_none sha256hex fs acc cnt wf rest hh]
      have hfresh2 : ∀ w ∈ rest, lookupAssoc acc w.relPath = none :=
        fun w hw => hfresh w (List.mem_cons_of_mem wf hw)
      rcases ih acc cnt hacc hndrest hfresh2 with ⟨h2, h3⟩
      refine ⟨?_, ?_⟩
      · rw [h2]
        simp [List.filter_cons, hh]
      · intro k v
        rw [h3 k v]
        simp [List.exists_mem_cons_iff, hh]
    | some h =>
      have hne := hash_ne_empty_of_some hsha hh
      rw [buildContentsAux_step_some sha256hex fs acc cnt wf rest h hh hne]
      have hfreshwf : lookupAssoc acc wf.relPath = none :=
        hfresh wf (List.mem_cons_self wf rest)
      have hanyf : acc.any (fun p => p.1 == wf.relPath) = false :=
        any_eq_false_of_lookupAssoc_none hfreshwf
      have hacc2 : NodupKeys (insertAssoc acc wf.relPath h) :=
        nodupKeys_insertAssoc wf.relPath h hacc
      have hfresh2 : ∀ w ∈ rest,
          lookupAssoc (insertAssoc acc wf.relPath h) w.relPath = none := by
        intro w hw
        have hwne : w.relPath ≠ wf.relPath := by
          intro hcontra
          apply hhead
          rw [← hcontra]
          exact List.mem_map.mpr ⟨w, hw, rfl⟩
        rw [lookupAssoc_insertAssoc_ne acc wf.relPath h w.relPath hwne]
        exact hfresh w (List.mem_cons_of_mem wf hw)
      rcases ih (insertAssoc acc wf.relPath h) (cnt + 1) hacc2 hndrest hfresh2
        with ⟨h2, h3⟩
      refine ⟨?_, ?_⟩
      · rw [h2, insertAssoc_length_of_not_any acc wf.relPath h hanyf]
        simp only [List.filter_cons, hh, Option.isSome_some, if_true]
        simp
        omega
      · intro k v
        rw [h3 k v]
        by_cases hk : k = wf.relPath
        · subst hk
          rw [lookupAssoc_insertAssoc_self]
          constructor
          · rintro (hv | ⟨w, hw, hrel, hcalc⟩)
            · exact Or.inr ⟨wf, List.mem_cons_self wf rest, rfl, hh.trans hv⟩
            · exfalso
              apply hhead
              rw [← hrel]
              exact List.mem_map.mpr ⟨w, hw, rfl⟩
          · rintro (haccv | ⟨w, hw, hrel, hcalc⟩)
            · rw [hfreshwf] at haccv
              exact Option.noConfusion haccv
            · rcases List.mem_cons.mp hw with hweq | hwmem
              · subst hweq
                rw [hh] at hcalc
                exact Or.inl hcalc
              · exfalso
                apply hhead
                rw [← hrel]
                exact List.mem_map.mpr ⟨w, hwmem, rfl⟩
        · rw [lookupAssoc_insertAssoc_ne acc wf.relPath h k hk]
          constructor
          · rintro (haccv | ⟨w, hw, hrel, hcalc⟩)
            · exact Or.inl haccv
            · exact Or.inr ⟨w, List.mem_cons_of_mem wf hw, hrel, hcalc⟩
          · rintro (haccv | ⟨w, hw, hrel, hcalc⟩)
            · exact Or.inl haccv
            · rcases List.mem_cons.mp hw with hweq | hwmem
              · subst hweq
                exact absurd hrel.symm hk
              · exact Or.inr ⟨w, hwmem, hrel, hcalc⟩

theorem buildContents_strong (sha256hex : List Nat → String) (fs : FileSys)
    (hsha : ∀ c, sha256hex c ≠ "") (files : List WalkedFile)
    (hnd : (files.map (fun wf => wf.relPath)).Nodup) :
    NodupKeys (buildContents sha256hex fs files).1 ∧
    (buildContents sha256hex fs files).1.length =
      (buildContents sha256hex fs files).2 ∧
    (∀ k v, lookupAssoc (buildContents sha256hex fs files).1 k = some v ↔
      ∃ wf ∈ files, wf.relPath = k ∧
        calculate_file_hash sha256hex fs wf.fullPath = some v) := by
  have hnodup := buildContentsAux_nodupKeys sha256hex fs files [] 0
    (by simp [NodupKeys, keysOf])
  have hcount := buildContentsAux_count sha256hex fs hsha files [] 0
  rcases buildContentsAux_strong sha256hex fs hsha files [] 0
    (by simp [NodupKeys, keysOf]) hnd (by intro wf _; rfl) with ⟨h2, h3⟩
  refine ⟨hnodup, ?_, ?_⟩
  · rw [buildContents, h2, hcount]
    simp
  · intro k v
    rw [buildContents, h3 k v]
    simp [lookupAssoc]

theorem foldl_insertAssoc_self :
    ∀ (l acc : List (String × String)), NodupKeys (acc ++ l) →
    l.foldl (fun m p => insertAssoc m p.1 p.2) acc = acc ++ l := by
  intro l
  induction l with
  | nil =>
    intro acc _
    simp
  | cons p ps ih =>
    intro acc h
    have hp1 : p.1 ∉ keysOf acc := by
      have hA : (keysOf acc ++ keysOf (p :: ps)).Nodup := by
        have : keysOf (acc ++ p :: ps) = keysOf acc ++ keysOf (p :: ps) := by
          unfold keysOf
          simp
        rw [NodupKeys, this] at h
        exact h
      have hd := (List.nodup_append.mp hA).2.2
      intro hmem
      exact hd hmem (by unfold keysOf; simp)
    have hfresh : acc.any (fun q => q.1 == p.1) = false := by
      rw [Bool.eq_false_iff]
      intro hany
      exact hp1 ((any_key_iff_mem_keys acc p.1).mp hany)
    have hins : insertAssoc acc p.1 p.2 = acc ++ [p] := by
      unfold insertAssoc
      rw [if_neg (by simp [hfresh])]
    have hnd2 : NodupKeys ((acc ++ [p]) ++ ps) := by
      rw [List.append_assoc]
      exact h
    rw [List.foldl_cons, hins, ih (acc ++ [p]) hnd2, List.append_assoc,
      List.singleton_append]

theorem filter_after_replace (db : DB) (id : String)
    (entries : List (String × String)) :
    ((db.filter (fun r => !(r.id == id))) ++
      entries.map (fun p => Row.mk id p.1 p.2)).filter
        (fun r => r.id == id) = entries.map (fun p => Row.mk id p.1 p.2) := by
  rw [List.filter_append]
  have h1 : (db.filter (fun r => !(r.id == id))).filter
      (fun r => r.id == id) = [] := by
    apply List.filter_eq_nil_iff.mpr
    intro r hr
    have h2 := (List.mem_filter.mp hr).2
    simp at h2
    simp [h2]
  rw [h1, List.nil_append]
  apply List.filter_eq_self.mpr
  intro r hr
  rcases List.mem_map.mp hr with ⟨p, hp, hpr⟩
  rw [← hpr]
  simp

theorem filter_not_id_after_replace (db : DB) (id : String)
    (entries : List (String × String)) :
    ((db.filter (fun r => !(r.id == id))) ++
      entries.map (fun p => Row.mk id p.1 p.2)).filter
        (fun r => !(r.id == id)) = db.filter (fun r => !(r.id == id)) := by
  rw [List.filter_append]
  have h1 : (db.filter (fun r => !(r.id == id))).filter
      (fun r => !(r.id == id)) = db.filter (fun r => !(r.id == id)) :=
    List.filter_eq_self.mpr (fun r hr => (List.mem_filter.mp hr).2)
  have h2 : (entries.map (fun p => Row.mk id p.1 p.2)).filter
      (fun r => !(r.id == id)) = [] := by
    apply List.filter_eq_nil_iff.mpr
    intro r hr
    rcases List.mem_map.mp hr with ⟨p, hp, hpr⟩
    rw [← hpr]
    simp
  rw [h1, h2, List.append_nil]

theorem load_snapshot_after_replace (db : DB) (id : String)
    (entries : List (String × String)) (hne : entries ≠ [])
    (hnd : NodupKeys entries) :
    load_snapshot ((db.filter (fun r => !(r.id == id))) ++
      entries.map (fun p => Row.mk id p.1 p.2)) id = some entries := by
  simp only [load_snapshot]
  rw [filter_after_replace db id entries]
  have hempty : ((entries.map (fun p => Row.mk id p.1 p.2)).isEmpty) = false := by
    cases entries with
    | nil => exact absurd rfl hne
    | cons e es => rfl
  rw [hempty]
  simp only [Bool.false_eq_true, if_false]
  congr 1
  rw [List.foldl_map]
  have h2 := foldl_insertAssoc_self entries [] (by simpa using hnd)
  rw [List.nil_append] at h2
  exact h2

theorem load_snapshot_after_replace_nil (db : DB) (id : String) :
    load_snapshot (db.filter (fun r => !(r.id == id))) id = none := by
  simp only [load_snapshot]
  have h1 : (db.filter (fun r => !(r.id == id))).filter
      (fun r => r.id == id) = [] := by
    apply List.filter_eq_nil_iff.mpr
    intro r hr
    have h2 := (List.mem_filter.mp hr).2
    simp at h2
    simp [h2]
  rw [h1]
  rfl

theorem create_snapshot_success (sha256hex : List Nat → String) (fs : FileSys)
    (dir : Dir) (id : String) (db : DB) (hdir : dir.isdir = true) :
    create_snapshot sha256hex fs dir id db none =
      (Except.ok (buildContents sha256hex fs dir.files).2,
        (db.filter (fun r => !(r.id == id))) ++
          (buildContents sha256hex fs dir.files).1.map
            (fun p => Row.mk id p.1 p.2)) := by
  simp [create_snapshot, snapshotDbPhase, hdir]

/-- C3 counterexample: building from a root with zero regular files
returns file count 0, but the load immediately afterwards returns None,
the not-found result, not an empty mapping (some []). -/
theorem empty_build_load_cex :
    (create_snapshot shaW fsW dirEmptyW ("e1") [] none).1 = Except.ok 0 ∧
    load_snapshot ((create_snapshot shaW fsW dirEmptyW ("e1") [] none).2)
      ("e1") = none :=
  ⟨rfl, rfl⟩

/-- C3 amended: building from a root with zero regular files returns
file count 0, and a load of that id immediately afterwards returns None
(the not-found result) — the store cannot distinguish an empty snapshot
from a never-built one, since it holds zero rows either way. -/
theorem empty_build_then_load_not_found (sha256hex : List Nat → String)
    (fs : FileSys) (dir : Dir) (id : String) (db : DB)
    (insertFail : Option Nat)
    (hdir : dir.isdir = true) (hempty : dir.files = []) :
    (create_snapshot sha256hex fs dir id db insertFail).1 = Except.ok 0 ∧
    load_snapshot ((create_snapshot sha256hex fs dir id db insertFail).2) id
      = none := by
  have hphase : snapshotDbPhase db id [] insertFail =
      (Except.ok (), db.filter (fun r => !(r.id == id))) := by
    unfold snapshotDbPhase
    cases insertFail with
    | none => simp
    | some i => simp
  have hbc : buildContents sha256hex fs dir.files = ([], 0) := by
    rw [hempty]
    rfl
  constructor
  · simp [create_snapshot, hdir, hbc, hphase]
  · simp [create_snapshot, hdir, hbc, hphase, load_snapshot_after_replace_nil]

theorem empty_build_then_load_not_found_witness :
    (create_snapshot shaW fsW dirEmptyW ("e2") [⟨"e2", "a.txt", "h1"⟩]
        none).1 = Except.ok 0 ∧
    load_snapshot
      ((create_snapshot shaW fsW dirEmptyW ("e2") [⟨"e2", "a.txt", "h1"⟩]
        none).2) ("e2") = none :=
  empty_build_then_load_not_found shaW fsW dirEmptyW ("e2")
    [⟨"e2", "a.txt", "h1"⟩] none rfl rfl

/-- C4 counterexample: at a valid root with zero regular files, build
succeeds with count 0 but the immediate load returns None rather than a
mapping (whose key set would have been empty), so the roundtrip claim
fails for this root. -/
theorem build_load_roundtrip_cex :
    (create_snapshot shaW fsW dirEmptyW ("e3") [] none).1 = Except.ok 0 ∧
    load_snapshot ((create_snapshot shaW fsW dirEmptyW ("e3") [] none).2)
      ("e3") = none :=
  ⟨rfl, rfl⟩

/-- C4 amended: for a valid root whose walked relative paths are
distinct, a digest function that never yields the empty string (as a
SHA-256 hexdigest never is), and at least one successfully hashed file,
build immediately followed by load returns the mapping whose keys are
exactly the relative paths of the successfully hashed regular files,
each mapped to the digest of that file's content, and whose size equals
the file count build returned. -/
theorem build_then_load_roundtrip (sha256hex : List Nat → String)
    (fs : FileSys) (dir : Dir) (id : String) (db : DB)
    (hsha : ∀ c, sha256hex c ≠ "")
    (hdir : dir.isdir = true)
    (hnd : (dir.files.map (fun wf => wf.relPath)).Nodup)
    (hsucc : ∃ wf ∈ dir.files,
      (calculate_file_hash sha256hex fs wf.fullPath).isSome) :
    (create_snapshot sha256hex fs dir id db none).1 =
      Except.ok ((buildContents sha256hex fs dir.files).2) ∧
    load_snapshot ((create_snapshot sha256hex fs dir id db none).2) id =
      some ((buildContents sha256hex fs dir.files).1) ∧
    (∀ k v,
      lookupAssoc ((buildContents sha256hex fs dir.files).1) k = some v ↔
      ∃ wf ∈ dir.files, wf.relPath = k ∧
        calculate_file_hash sha256hex fs wf.fullPath = some v) ∧
    ((buildContents sha256hex fs dir.files).1).length =
      (buildContents sha256hex fs dir.files).2 := by
  rcases buildContents_strong sha256hex fs hsha dir.files hnd with
    ⟨hnodup, hlen, hlook⟩
  have hcount := buildContentsAux_count sha256hex fs hsha dir.files [] 0
  have hpos :
      0 < (dir.files.filter (fun wf =>
        (calculate_file_hash sha256hex fs wf.fullPath).isSome)).length := by
    rcases hsucc with ⟨wf, hwf, hsome⟩
    have : wf ∈ dir.files.filter (fun w =>
        (calculate_file_hash sha256hex fs w.fullPath).isSome) :=
      List.mem_filter.mpr ⟨hwf, hsome⟩
    exact List.length_pos.mpr (List.ne_nil_of_mem this)
  have hne : (buildContents sha256hex fs dir.files).1 ≠ [] := by
    intro hcontra
    rw [hcontra] at hlen
    rw [buildContents] at hlen
    rw [hcount] at hlen
    simp at hlen
    omega
  rw [create_snapshot_success sha256hex fs dir id db hdir]
  refine ⟨rfl, ?_, hlook, hlen⟩
  exact load_snapshot_after_replace db id
    ((buildContents sha256hex fs dir.files).1) hne hnodup

theorem build_then_load_roundtrip_witness :
    (create_snapshot shaW fsW dirW ("w4") [] none).1 =
      Except.ok ((buildContents shaW fsW dirW.files).2) ∧
    load_snapshot ((create_snapshot shaW fsW dirW ("w4") [] none).2)
      ("w4") = some ((buildContents shaW fsW dirW.files).1) ∧
    (∀ k v, lookupAssoc ((buildContents shaW fsW dirW.files).1) k = some v ↔
      ∃ wf ∈ dirW.files, wf.relPath = k ∧
        calculate_file_hash shaW fsW wf.fullPath = some v) ∧
    ((buildContents shaW fsW dirW.files).1).length =
      (buildContents shaW fsW dirW.files).2 :=
  build_then_load_roundtrip shaW fsW dirW ("w4") [] shaW_ne_empty rfl
    (by decide) ⟨⟨"f1.txt", "f1.txt"⟩, by decide, by rfl⟩

/-- C9: building twice in a row with an unchanged root and the same id
yields the identical result both times: the second build returns the
same file count, leaves the database exactly as the first build left it
(so the second fully supersedes the first with no stale entries), and
the rows stored under the id have pairwise distinct filepaths (no
duplicate entries). -/
theorem create_snapshot_idempotent (sha256hex : List Nat → String)
    (fs : FileSys) (dir : Dir) (id : String) (db : DB)
    (hdir : dir.isdir = true) :
    (create_snapshot sha256hex fs dir id
        ((create_snapshot sha256hex fs dir id db none).2) none).1 =
      (create_snapshot sha256hex fs dir id db none).1 ∧
    (create_snapshot sha256hex fs dir id
        ((create_snapshot sha256hex fs dir id db none).2) none).2 =
      (create_snapshot sha256hex fs dir id db none).2 ∧
    ((((create_snapshot sha256hex fs dir id db none).2).filter
        (fun r => r.id == id)).map (fun r => r.filepath)).Nodup := by
  have hs1 := create_snapshot_success sha256hex fs dir id db hdir
  have hs2 := create_snapshot_success sha256hex fs dir id
    ((create_snapshot sha256hex fs dir id db none).2) hdir
  refine ⟨?_, ?_, ?_⟩
  · rw [hs2, hs1]
  · rw [hs2, hs1]
    simp only
    rw [filter_not_id_after_replace]
  · rw [hs1]
    simp only
    rw [filter_after_replace]
    have hnodup := buildContentsAux_nodupKeys sha256hex fs dir.files [] 0
      (by simp [NodupKeys, keysOf])
    rw [List.map_map]
    exact hnodup

theorem create_snapshot_idempotent_witness :
    (create_snapshot shaW fsW dirW ("w9")
        ((create_snapshot shaW fsW dirW ("w9") [] none).2) none).2 =
      (create_snapshot shaW fsW dirW ("w9") [] none).2 :=
  (create_snapshot_idempotent shaW fsW dirW ("w9") [] rfl).2.1

/-- C2: the replace is not atomic.  At this concrete input the store
holds one old row for id s1; replacing it with one new entry whose
insert fails leaves the store with no rows at all for s1, because the
delete was committed on its own before the inserts began: the rollback
undoes only the inserts.  The old entries are not intact after the
failed replace (a subsequent load finds nothing), contradicting the
claim. -/
theorem snapshotDbPhase_failure_loses_old_rows :
    snapshotDbPhase [⟨"s1", "a.txt", "h1"⟩] ("s1") [("b.txt", "h2")]
        (some 0) =
      (Except.error ("Database write error"), []) ∧
    load_snapshot
      ((snapshotDbPhase [⟨"s1", "a.txt", "h1"⟩] ("s1") [("b.txt", "h2")]
        (some 0)).2) ("s1") = none :=
  ⟨rfl, rfl⟩

end SnapDiff
